import Mathlib

/-
Verification of the MagneticSim numerical core.

Shallow embedding of the numerical parts of the four scripts:
  * `simulator.py`   - Biot-Savart field of a stacked coil over a 3-D sampling grid;
  * `simulator_.py`  - same geometry built per-turn, single-point Biot-Savart and
                       point-dipole evaluators, moving-magnet animation step;
  * `2d_sim.py`      - 1-D moving magnet, dipole-axial flux model, backward-difference EMF;
  * `2d_sim_gemini.py` - 2-D moving magnet, Lorentzian flux model, Lenz direction resolver.

Floating-point arithmetic is modelled by exact real (or rational) arithmetic.
numpy's `np.where(r_norm == 0, np.inf, r_norm**3)` followed by a division is
modelled by the zero-contribution branch (a finite vector divided by infinity
is the zero vector).
-/

open scoped Classical

namespace MagneticSim

/-- Three-component real vector, used for positions, segment displacements,
dipole moments and field vectors. -/
abbrev Vec3 := ℝ × ℝ × ℝ

/-- Euclidean norm of a 3-vector (`np.linalg.norm`). -/
noncomputable def vnorm (v : Vec3) : ℝ := Real.sqrt (v.1 ^ 2 + v.2.1 ^ 2 + v.2.2 ^ 2)

/-- Cross product of two 3-vectors (`np.cross`). -/
def cross (a b : Vec3) : Vec3 :=
  (a.2.1 * b.2.2 - a.2.2 * b.2.1,
   a.2.2 * b.1 - a.1 * b.2.2,
   a.1 * b.2.1 - a.2.1 * b.1)

/-- Dot product of two 3-vectors (`np.dot`). -/
def dot (a b : Vec3) : ℝ := a.1 * b.1 + a.2.1 * b.2.1 + a.2.2 * b.2.2

/-- Exact model of `np.arange(start, stop, step)` for rational arguments:
`⌈(stop - start)/step⌉` evenly spaced values starting at `start`. -/
def arange (start stop step : ℚ) : List ℚ :=
  (List.range (⌈(stop - start) / step⌉).toNat).map fun n => start + n * step

namespace BiotSavart

/-- Vacuum permeability `mu_0 = 4 * np.pi * 1e-7` (both simulator scripts). -/
noncomputable def mu_0 : ℝ := 4 * Real.pi * 1e-7

/-- Coil current `i = 300` amperes. -/
def i : ℝ := 300

/-- Biot-Savart constant `km = mu_0 * i / (4 * np.pi)`. -/
noncomputable def km : ℝ := mu_0 * i / (4 * Real.pi)

/-- The k-th angle of a ring discretized with `P` points:
`thetas = np.linspace(0, 2*np.pi, P, endpoint=False)`. -/
noncomputable def theta (P k : ℕ) : ℝ := 2 * Real.pi * k / P

/-- Point `k` of the planar ring of radius `R` discretized with `P` points:
`(R*cos(theta), R*sin(theta), 0)` (`coil_pos_x`, `coil_pos_y`, `coil_pos_z`). -/
noncomputable def coil_pos (R : ℝ) (P k : ℕ) : Vec3 :=
  (R * Real.cos (theta P k), R * Real.sin (theta P k), 0)

/-- Segment displacement `k` of the ring: `np.diff(coil_pos, append=coil_pos[0])`,
i.e. the difference between the cyclic successor point and the point itself
(`dl_x`, `dl_y`, `dl_z`; the z-component is identically zero). -/
noncomputable def dl_vec (R : ℝ) (P k : ℕ) : Vec3 :=
  coil_pos R P ((k + 1) % P) - coil_pos R P k

/-- Origins of the `P` segments of one ring placed at axial offset `z`
(`segment_origins = np.stack([origin_x, origin_y, origin_z], axis=1)`). -/
noncomputable def ring_origins (R : ℝ) (P : ℕ) (z : ℝ) : List Vec3 :=
  (List.range P).map fun k => ((coil_pos R P k).1, (coil_pos R P k).2.1, z)

/-- The `P` segment displacement vectors of one ring
(`dl_vectors = np.stack([dl_x, dl_y, dl_z], axis=1)`; identical for every ring). -/
noncomputable def ring_dls (R : ℝ) (P : ℕ) : List Vec3 :=
  (List.range P).map fun k => dl_vec R P k

/-- Axial ring offsets of `simulator.py` (line 36):
`np.arange(0, coils_number * coils_step + coils_step, coils_step)`. -/
def coil_z_offsets (turns : ℕ) (s : ℚ) : List ℚ :=
  arange 0 (turns * s + s) s

/-- Axial ring offsets of `simulator_.py` (lines 47-48):
`z_pos = k * coils_step` for `k in range(coils_number)`. -/
def coil_z_offsets' (turns : ℕ) (s : ℚ) : List ℚ :=
  (List.range turns).map fun k => (k : ℚ) * s

/-- Concatenated segment origins of the stacked coil, one ring per axial
offset (`r_primes = np.concatenate(all_segment_origins, axis=0)`). -/
noncomputable def all_segment_origins (R : ℝ) (P : ℕ) (offsets : List ℚ) : List Vec3 :=
  (offsets.map fun z => ring_origins R P (z : ℝ)).flatten

/-- Concatenated segment displacement vectors of the stacked coil
(`dl_vectors = np.concatenate(all_dl_vectors, axis=0)`). -/
noncomputable def all_dl_vectors (R : ℝ) (P : ℕ) (offsets : List ℚ) : List Vec3 :=
  (offsets.map fun _ => ring_dls R P).flatten

/-- Biot-Savart contribution of one segment `(dl)` at relative position `rv`:
`km * np.cross(dl, r_vector) / r_norm3` with
`r_norm3 = np.where(r_norm == 0, np.inf, r_norm**3)`; the infinite-denominator
branch yields the zero vector. -/
noncomputable def dB_contrib (kmv : ℝ) (dl rv : Vec3) : Vec3 :=
  if vnorm rv = 0 then 0 else kmv • ((1 / (vnorm rv) ^ 3) • cross dl rv)

/-- Single-point Biot-Savart evaluation over a coil given as a list of
`(origin, dl)` segments (`magnetic_field_from_coil_at_point`, `simulator_.py`
lines 97-108): sum of the per-segment contributions at `r_point`. -/
noncomputable def magnetic_field_from_coil_at_point
    (r_point : Vec3) (segs : List (Vec3 × Vec3)) (kmv : ℝ) : Vec3 :=
  (segs.map fun s => dB_contrib kmv s.2 (r_point - s.1)).sum

/-- Spatial resolution of the sampling grid (`space_res = 0.5`). -/
def space_res : ℚ := 1 / 2

/-- Grid x-axis: `np.arange(-2, 2 + space_res, space_res)`. -/
def x_dim : List ℚ := arange (-2) (2 + space_res) space_res

/-- Grid y-axis: `np.arange(-3, 3 + space_res, space_res)`. -/
def y_dim : List ℚ := arange (-3) (3 + space_res) space_res

/-- Grid z-axis: `np.arange(-4, 4 + space_res, space_res)`. -/
def z_dim : List ℚ := arange (-4) (4 + space_res) space_res

/-- Lattice point `(ix, iy, iz)` of the sampling grid built by
`np.meshgrid(x_dim, y_dim, z_dim, indexing='ij')`. -/
noncomputable def grid_point (ix iy iz : ℕ) : Vec3 :=
  ((x_dim.getD ix 0 : ℝ), (y_dim.getD iy 0 : ℝ), (z_dim.getD iz 0 : ℝ))

/-- Whole-grid broadcast Biot-Savart evaluation (`simulator.py` lines 62-73),
read at lattice index `(ix, iy, iz)`: the broadcast computes, for every
segment `s` and every lattice point,
`dB = km * np.cross(dl, r - r_prime) / r_norm3` and sums over the segment
axis (`B = np.sum(dB, axis=0)`). -/
noncomputable def B_grid (segs : List (Vec3 × Vec3)) (kmv : ℝ) (ix iy iz : ℕ) : Vec3 :=
  (segs.map fun s => dB_contrib kmv s.2 (grid_point ix iy iz - s.1)).sum

/-- Point-dipole field (`magnetic_field_from_dipole`, `simulator_.py` lines
72-94): zero vector when the field point coincides with the dipole, otherwise
`(mu_0 / 4*pi) * (3*r_hat*(m . r_hat) - m) / r_mag^3`. -/
noncomputable def magnetic_field_from_dipole (r_point r_dipole m_dipole : Vec3) : Vec3 :=
  let r_vec := r_point - r_dipole
  let r_mag := vnorm r_vec
  if r_mag = 0 then 0
  else
    let r_hat := (1 / r_mag) • r_vec
    let m_dot_r_hat := dot m_dipole r_hat
    let term := (3 * m_dot_r_hat) • r_hat - m_dipole
    (mu_0 / (4 * Real.pi)) • ((1 / r_mag ^ 3) • term)

/-- Dipole field as written in the specification:
`B = (mu_0/4pi) * (3*r_hat*(m . r_hat) - m) / |r_vec|^3`, with no special case. -/
noncomputable def dipole_field_formula (r_point r_dipole m_dipole : Vec3) : Vec3 :=
  let r_vec := r_point - r_dipole
  let r_hat := (1 / vnorm r_vec) • r_vec
  (mu_0 / (4 * Real.pi)) • ((1 / (vnorm r_vec) ^ 3) • ((3 * dot m_dipole r_hat) • r_hat - m_dipole))

/-- Magnet speed along z (`magnet_speed = 0.05`, `simulator_.py`). -/
def magnet_speed : ℚ := 1 / 20

/-- Initial magnet z-position (`magnet_initial_z = 4.0`). -/
def magnet_initial_z : ℚ := 4

/-- Final magnet z-position (`magnet_final_z = -4.0`). -/
def magnet_final_z : ℚ := -4

/-- One animation step of the magnet position (`simulator_.py` lines 178-180):
`magnet_current_z -= magnet_speed; if magnet_current_z < magnet_final_z:
magnet_current_z = magnet_initial_z`. -/
def magnet_step_z (z : ℚ) : ℚ :=
  let z' := z - magnet_speed
  if z' < magnet_final_z then magnet_initial_z else z'

end BiotSavart

namespace Sim2D

/-- Number of turns (`N = 1`, `2d_sim.py`). -/
def N : ℚ := 1

/-- Loop area (`A = 1e-4`). -/
def A : ℚ := 1 / 10000

/-- Magnet speed (`v = 0.02`). -/
def v : ℚ := 1 / 50

/-- Magnet magnetic moment (`m = 1`). -/
def m : ℚ := 1

/-- Fixed loop position on the x axis (`coil_position = 0.5`). -/
def coil_position : ℚ := 1 / 2

/-- Time step (`dt = 0.05`). -/
def dt : ℚ := 1 / 20

/-- Initial magnet position (`x0 = -0.5`). -/
def x0 : ℚ := -1 / 2

/-- Epsilon-softened cubed distance appearing in the denominator of `B_field`
(`2d_sim.py` lines 23-24): `r**3 + 1e-9` with `r = coil_position - x`. -/
noncomputable def r3_softened (x : ℝ) : ℝ := ((coil_position : ℝ) - x) ^ 3 + 1e-9

/-- Dipole-axial field model (`B_field`, `2d_sim.py` lines 22-24):
`mu_0 * m / (2 * np.pi * (r**3 + 1e-9))`. -/
noncomputable def B_field (x : ℝ) : ℝ :=
  BiotSavart.mu_0 * (m : ℝ) / (2 * Real.pi * r3_softened x)

/-- Flux recorded at frame `n` (`update`, `2d_sim.py` lines 56-59):
`t = frame * dt; x = x0 + v * t; flux = N * A * B_field(x)`. -/
noncomputable def flux_at (frame : ℕ) : ℝ :=
  (N : ℝ) * (A : ℝ) * B_field ((x0 : ℝ) + (v : ℝ) * ((frame : ℝ) * (dt : ℝ)))

/-- EMF computed at one frame from the flux history (`update`, `2d_sim.py`
lines 64-68): `0` at frame 0, otherwise
`-(flux_vals[-1] - flux_vals[-2]) / dt`. -/
noncomputable def emf_step (frame : ℕ) (flux_vals : List ℝ) (dtv : ℝ) : ℝ :=
  if frame = 0 then 0
  else -(flux_vals.getLastD 0 - flux_vals.dropLast.getLastD 0) / dtv

/-- Flux history after frames `0, 1, ..., n-1` have run, for an arbitrary
per-frame flux function `phi` (the code appends `flux` to `flux_vals` once per
frame; `2d_sim.py` instantiates `phi` with `flux_at`). -/
def run_flux (phi : ℕ → ℝ) : ℕ → List ℝ
  | 0 => []
  | n + 1 => run_flux phi n ++ [phi n]

/-- EMF history after frames `0, 1, ..., n-1` have run: each frame first
appends its flux, then appends `emf_step` of the flux history so far. -/
noncomputable def run_emf (phi : ℕ → ℝ) (dtv : ℝ) : ℕ → List ℝ
  | 0 => []
  | n + 1 => run_emf phi dtv n ++ [emf_step n (run_flux phi (n + 1)) dtv]

end Sim2D

namespace Gemini2D

/-- Coil resistance (`coil_resistance = 1.0`, `2d_sim_gemini.py`). -/
def coil_resistance : ℚ := 1

/-- Coil center x-coordinate (`coil_center_x = coil_x = 0`). -/
def coil_center_x : ℚ := 0

/-- Coil width (`coil_width = 1.5`). -/
def coil_width : ℚ := 3 / 2

/-- Coil height (`coil_height = 1.5`). -/
def coil_height : ℚ := 3 / 2

/-- Number of turns (`num_turns = 10`). -/
def num_turns : ℚ := 10

/-- Field strength constant (`B_field_strength = 1.0`). -/
def B_field_strength : ℚ := 1

/-- Magnet speed (`magnet_speed = 0.1`). -/
def magnet_speed : ℚ := 1 / 10

/-- Magnet length (`magnet_length = 0.8`). -/
def magnet_length : ℚ := 4 / 5

/-- Display x-limits (`ax.set_xlim([-5, 5])`, read back via `ax.get_xlim()`). -/
def x_limits : ℚ × ℚ := (-5, 5)

/-- One animation step of the magnet position (`animate`, `2d_sim_gemini.py`
lines 152-154): `magnet_x += magnet_speed; if magnet_x > xlim[1] +
magnet_length/2: magnet_x = xlim[0] - magnet_length/2`. -/
def magnet_step_x (x : ℚ) : ℚ :=
  let x' := x + magnet_speed
  if x' > x_limits.2 + magnet_length / 2 then x_limits.1 - magnet_length / 2 else x'

/-- Denominator of the Lorentzian effective-field model (`animate`, line 203):
`(magnet_x - coil_center_x)**2 + (coil_width/2)**2`. -/
def mfm_denom (magnet_x : ℚ) : ℚ :=
  (magnet_x - coil_center_x) ^ 2 + (coil_width / 2) ^ 2

/-- Effective field magnitude at the coil (`animate`, line 203):
`B_field_strength / ((magnet_x - coil_center_x)**2 + (coil_width/2)**2)`. -/
def magnetic_field_magnitude (magnet_x : ℚ) : ℚ :=
  B_field_strength / mfm_denom magnet_x

/-- Flux through the coil (`animate`, line 209):
`phi_B = magnetic_field_magnitude * coil_width * coil_height * num_turns`. -/
def phi_B (magnet_x : ℚ) : ℚ :=
  magnetic_field_magnitude magnet_x * coil_width * coil_height * num_turns

/-- Qualitative circulation direction of the induced current shown by the
animation (the green `current_arrow`). -/
inductive Circulation where
  | counterclockwise
  | clockwise
  | suppressed
deriving DecidableEq

/-- Qualitative direction of the induced magnetic field shown by the animation
(`induced_B_arrow_out` / `induced_B_arrow_in`; `SALIENDO` = outward,
`ENTRANDO` = inward). -/
inductive InducedField where
  | outward
  | inward
  | suppressed
deriving DecidableEq

/-- Lenz direction resolution (`animate`, `2d_sim_gemini.py` lines 254-333):
`current_induced = emf_induced / coil_resistance`; the indicator is shown only
when `abs(current_induced) > 0.01`; within that, `emf_induced < 0` displays the
counter-clockwise current and the outward induced field, `emf_induced > 0` the
clockwise current and the inward induced field, and otherwise everything is
hidden. -/
def lenz_resolver (emf_induced : ℚ) : Circulation × InducedField :=
  let current_induced := emf_induced / coil_resistance
  let current_strength := |current_induced|
  if current_strength > 1 / 100 then
    if emf_induced < 0 then (Circulation.counterclockwise, InducedField.outward)
    else if emf_induced > 0 then (Circulation.clockwise, InducedField.inward)
    else (Circulation.suppressed, InducedField.suppressed)
  else (Circulation.suppressed, InducedField.suppressed)

end Gemini2D

/-- The norm of the zero vector is zero. -/
theorem vnorm_zero : vnorm (0 : Vec3) = 0 := by
  unfold vnorm
  norm_num

/-- The norm vanishes exactly on the zero vector. -/
theorem vnorm_eq_zero (v : Vec3) : vnorm v = 0 ↔ v = 0 := by
  obtain ⟨a, b, c⟩ := v
  unfold vnorm
  rw [Real.sqrt_eq_zero']
  simp only [Prod.ext_iff, Prod.fst_zero, Prod.snd_zero]
  constructor
  · intro h
    refine ⟨?_, ?_, ?_⟩ <;> nlinarith [sq_nonneg a, sq_nonneg b, sq_nonneg c]
  · rintro ⟨h1, h2, h3⟩
    rw [h1, h2, h3]
    norm_num

/-- Sum of a list built by mapping over an initial segment of the naturals,
as a finite sum. -/
theorem sum_map_range (g : ℕ → Vec3) (n : ℕ) :
    ((List.range n).map g).sum = ∑ k ∈ Finset.range n, g k := rfl

/-- List lookup with default in the left part of an append. -/
theorem getD_append_lt (l l' : List ℝ) (k : ℕ) (h : k < l.length) :
    (l ++ l').getD k 0 = l.getD k 0 := by
  simp [List.getD, List.getElem?_append, h]

/-- The flux history after `n` frames has `n` entries. -/
theorem run_flux_length (phi : ℕ → ℝ) (n : ℕ) : (Sim2D.run_flux phi n).length = n := by
  induction n with
  | zero => rfl
  | succ nn ih => simp [Sim2D.run_flux, ih]

/-- The EMF history after `n` frames has `n` entries. -/
theorem run_emf_length (phi : ℕ → ℝ) (dtv : ℝ) (n : ℕ) :
    (Sim2D.run_emf phi dtv n).length = n := by
  induction n with
  | zero => rfl
  | succ nn ih => simp [Sim2D.run_emf, ih]

/-- The EMF appended at frame `n` is `0` for `n = 0` and the negated backward
difference of the flux function otherwise. -/
theorem emf_step_run (phi : ℕ → ℝ) (dtv : ℝ) (n : ℕ) :
    Sim2D.emf_step n (Sim2D.run_flux phi (n + 1)) dtv
      = if n = 0 then 0 else -(phi n - phi (n - 1)) / dtv := by
  cases n with
  | zero => simp [Sim2D.emf_step]
  | succ k =>
    simp [Sim2D.emf_step, Sim2D.run_flux, List.dropLast_concat]

/-- C2: for every coil geometry (list of segments), every scaling constant and
every lattice point of the sampling grid, the whole-grid broadcast Biot-Savart
evaluation (`simulator.py`) produces the same field vector as the single-point
Biot-Savart evaluation (`simulator_.py`) at the same coordinates: the two
embeddings compute the same function. -/
theorem c2_grid_matches_point (segs : List (Vec3 × Vec3)) (kmv : ℝ) (ix iy iz : ℕ) :
    BiotSavart.B_grid segs kmv ix iy iz
      = BiotSavart.magnetic_field_from_coil_at_point (BiotSavart.grid_point ix iy iz) segs kmv :=
  rfl

/-- C3: for every per-frame flux function, every (constant) time step and every
completed frame `k` of a run, the recorded EMF is `0` at frame `0` and the
negated backward difference `-(flux[k] - flux[k-1]) / dt` at every frame
`k >= 1`. -/
theorem c3_emf_backward_difference (phi : ℕ → ℝ) (dtv : ℝ) (n k : ℕ) (hk : k < n) :
    (Sim2D.run_emf phi dtv n).getD k 0
      = if k = 0 then 0 else -(phi k - phi (k - 1)) / dtv := by
  induction n with
  | zero => omega
  | succ nn ih =>
    rcases Nat.lt_succ_iff_lt_or_eq.mp hk with h | h
    · rw [Sim2D.run_emf, getD_append_lt _ _ _ (by rw [run_emf_length]; exact h)]
      exact ih h
    · subst h
      rw [Sim2D.run_emf]
      have hlen : (Sim2D.run_emf phi dtv k).length = k := run_emf_length phi dtv k
      have hget : (Sim2D.run_emf phi dtv k
            ++ [Sim2D.emf_step k (Sim2D.run_flux phi (k + 1)) dtv]).getD
              (Sim2D.run_emf phi dtv k).length 0
          = Sim2D.emf_step k (Sim2D.run_flux phi (k + 1)) dtv := by simp
      rw [hlen] at hget
      rw [hget]
      exact emf_step_run phi dtv k

/-- C3 witness: in the concrete run of `2d_sim.py` (flux function `flux_at`,
time step `dt`), after 3 frames the EMF recorded at frame 2 is the negated
backward difference of the flux. -/
theorem c3_emf_backward_difference_witness :
    2 < 3 ∧
    (Sim2D.run_emf Sim2D.flux_at (Sim2D.dt : ℝ) 3).getD 2 0
      = if 2 = 0 then 0 else
          -(Sim2D.flux_at 2 - Sim2D.flux_at (2 - 1)) / (Sim2D.dt : ℝ) :=
  ⟨by decide, c3_emf_backward_difference Sim2D.flux_at (Sim2D.dt : ℝ) 3 2 (by decide)⟩

/-- C4: whenever the induced-current magnitude exceeds the display threshold
`0.01`, the Lenz resolver outputs (counter-clockwise, outward induced field)
for negative EMF and (clockwise, inward induced field) for positive EMF; when
the EMF is zero or the current magnitude stays below the threshold, both
indicators are suppressed. -/
theorem c4_lenz_resolver (e : ℚ) :
    (1 / 100 < |e / Gemini2D.coil_resistance| →
      (e < 0 → Gemini2D.lenz_resolver e
          = (Gemini2D.Circulation.counterclockwise, Gemini2D.InducedField.outward)) ∧
      (0 < e → Gemini2D.lenz_resolver e
          = (Gemini2D.Circulation.clockwise, Gemini2D.InducedField.inward))) ∧
    (e = 0 ∨ |e / Gemini2D.coil_resistance| < 1 / 100 →
      Gemini2D.lenz_resolver e
        = (Gemini2D.Circulation.suppressed, Gemini2D.InducedField.suppressed)) := by
  simp only [Gemini2D.lenz_resolver]
  refine ⟨fun ht => ⟨fun hneg => ?_, fun hpos => ?_⟩, fun hz => ?_⟩
  · rw [if_pos ht, if_pos hneg]
  · rw [if_pos ht, if_neg (not_lt.mpr hpos.le), if_pos hpos]
  · rcases hz with rfl | hlt
    · norm_num
    · rw [if_neg (not_lt.mpr hlt.le)]

/-- C4 witness: the spec's three sample EMF values. For EMF `-0.5` the output
is (counter-clockwise, outward), for `+0.5` it is (clockwise, inward), and for
`0` it is (suppressed, suppressed). -/
theorem c4_lenz_resolver_witness :
    Gemini2D.lenz_resolver (-(1 / 2))
        = (Gemini2D.Circulation.counterclockwise, Gemini2D.InducedField.outward) ∧
    Gemini2D.lenz_resolver (1 / 2)
        = (Gemini2D.Circulation.clockwise, Gemini2D.InducedField.inward) ∧
    Gemini2D.lenz_resolver 0
        = (Gemini2D.Circulation.suppressed, Gemini2D.InducedField.suppressed) :=
  ⟨((c4_lenz_resolver (-(1 / 2))).1
      (by norm_num [Gemini2D.coil_resistance, abs_of_pos])).1 (by norm_num),
   ((c4_lenz_resolver (1 / 2)).1
      (by norm_num [Gemini2D.coil_resistance, abs_of_pos])).2 (by norm_num),
   (c4_lenz_resolver 0).2 (Or.inl rfl)⟩

/-- C8: a step that would carry the source position past the configured
boundary resets the position exactly to the fixed re-entry bound (the
configured start position `magnet_initial_z` in `simulator_.py`; the left
display edge `xlim[0] - magnet_length/2` in `2d_sim_gemini.py`), with no
partial overshoot carried over; any other step advances the position by
exactly the fixed per-step velocity. -/
theorem c8_wrap_reset (z x : ℚ) :
    (z - BiotSavart.magnet_speed < BiotSavart.magnet_final_z →
      BiotSavart.magnet_step_z z = BiotSavart.magnet_initial_z) ∧
    (BiotSavart.magnet_final_z ≤ z - BiotSavart.magnet_speed →
      BiotSavart.magnet_step_z z = z - BiotSavart.magnet_speed) ∧
    (Gemini2D.x_limits.2 + Gemini2D.magnet_length / 2 < x + Gemini2D.magnet_speed →
      Gemini2D.magnet_step_x x = Gemini2D.x_limits.1 - Gemini2D.magnet_length / 2) ∧
    (x + Gemini2D.magnet_speed ≤ Gemini2D.x_limits.2 + Gemini2D.magnet_length / 2 →
      Gemini2D.magnet_step_x x = x + Gemini2D.magnet_speed) := by
  simp only [BiotSavart.magnet_step_z, Gemini2D.magnet_step_x]
  refine ⟨fun h => ?_, fun h => ?_, fun h => ?_, fun h => ?_⟩
  · rw [if_pos h]
  · rw [if_neg (not_lt.mpr h)]
  · rw [if_pos h]
  · rw [if_neg (not_lt.mpr h)]

/-- C8 witness: concrete wrap and non-wrap steps for both scripts. From
`z = -4` the z-step wraps to `magnet_initial_z = 4`; from `z = 0` it advances
by the velocity; from `x = 5.4` the x-step wraps to the left re-entry bound
`-5.4`; from `x = 0` it advances by the velocity. -/
theorem c8_wrap_reset_witness :
    BiotSavart.magnet_step_z (-4) = BiotSavart.magnet_initial_z ∧
    BiotSavart.magnet_step_z 0 = 0 - BiotSavart.magnet_speed ∧
    Gemini2D.magnet_step_x (27 / 5) = Gemini2D.x_limits.1 - Gemini2D.magnet_length / 2 ∧
    Gemini2D.magnet_step_x 0 = 0 + Gemini2D.magnet_speed :=
  ⟨(c8_wrap_reset (-4) 0).1
      (by norm_num [BiotSavart.magnet_speed, BiotSavart.magnet_final_z]),
   (c8_wrap_reset 0 0).2.1
      (by norm_num [BiotSavart.magnet_speed, BiotSavart.magnet_final_z]),
   (c8_wrap_reset 0 (27 / 5)).2.2.1
      (by norm_num [Gemini2D.magnet_speed, Gemini2D.magnet_length, Gemini2D.x_limits]),
   (c8_wrap_reset 0 0).2.2.2
      (by norm_num [Gemini2D.magnet_speed, Gemini2D.magnet_length, Gemini2D.x_limits])⟩

/-- C10: in the Lorentzian flux model of `2d_sim_gemini.py`, for every magnet
position the denominator is bounded below by `(coil_width/2)^2 > 0`, and the
computed flux `phi_B` is strictly positive; in particular the flux sequence
never changes sign during a run. -/
theorem c10_lorentzian_flux_positive (magnet_x : ℚ) :
    (Gemini2D.coil_width / 2) ^ 2 ≤ Gemini2D.mfm_denom magnet_x ∧
    0 < (Gemini2D.coil_width / 2) ^ 2 ∧
    0 < Gemini2D.phi_B magnet_x := by
  refine ⟨?_, by norm_num [Gemini2D.coil_width], ?_⟩
  · unfold Gemini2D.mfm_denom
    nlinarith [sq_nonneg (magnet_x - Gemini2D.coil_center_x)]
  · unfold Gemini2D.phi_B Gemini2D.magnetic_field_magnitude Gemini2D.mfm_denom
    have hden : 0 < (magnet_x - Gemini2D.coil_center_x) ^ 2 + (Gemini2D.coil_width / 2) ^ 2 := by
      have : (0:ℚ) < (Gemini2D.coil_width / 2) ^ 2 := by norm_num [Gemini2D.coil_width]
      nlinarith [sq_nonneg (magnet_x - Gemini2D.coil_center_x)]
    have hB : 0 < Gemini2D.B_field_strength := by norm_num [Gemini2D.B_field_strength]
    have h1 : 0 < Gemini2D.B_field_strength
        / ((magnet_x - Gemini2D.coil_center_x) ^ 2 + (Gemini2D.coil_width / 2) ^ 2) :=
      div_pos hB hden
    have hw : 0 < Gemini2D.coil_width := by norm_num [Gemini2D.coil_width]
    have hh : 0 < Gemini2D.coil_height := by norm_num [Gemini2D.coil_height]
    have hn : 0 < Gemini2D.num_turns := by norm_num [Gemini2D.num_turns]
    positivity

/-- C5: a segment whose origin coincides exactly with the field point (so that
the relative vector has zero norm) contributes exactly the zero vector to the
Biot-Savart sum (the `np.inf` cubed norm makes its term vanish, and no
division error reaches the caller), while every segment whose origin differs
from the field point contributes the ordinary term
`km * cross(dl, r) / |r|^3`. -/
theorem c5_coincident_segment_zero (kmv : ℝ) (segs : List (Vec3 × Vec3)) (p o dl : Vec3)
    (h : o ≠ p) :
    BiotSavart.magnetic_field_from_coil_at_point p ((p, dl) :: segs) kmv
      = BiotSavart.magnetic_field_from_coil_at_point p segs kmv ∧
    BiotSavart.magnetic_field_from_coil_at_point p ((o, dl) :: segs) kmv
      = kmv • ((1 / (vnorm (p - o)) ^ 3) • cross dl (p - o))
        + BiotSavart.magnetic_field_from_coil_at_point p segs kmv := by
  constructor
  · unfold BiotSavart.magnetic_field_from_coil_at_point
    simp [BiotSavart.dB_contrib, vnorm_zero]
  · unfold BiotSavart.magnetic_field_from_coil_at_point
    have hne : vnorm (p - o) ≠ 0 := by
      rw [Ne, vnorm_eq_zero, sub_eq_zero]
      exact fun hh => h hh.symm
    simp [BiotSavart.dB_contrib, hne]

/-- C5 witness: with the field point at the origin, a coincident segment
contributes nothing and a segment placed at `(1,0,0)` contributes its ordinary
Biot-Savart term. -/
theorem c5_coincident_segment_zero_witness :
    (((1:ℝ), (0:ℝ), (0:ℝ)) : Vec3) ≠ (0 : Vec3) ∧
    (BiotSavart.magnetic_field_from_coil_at_point 0
        [((0 : Vec3), (((0:ℝ), (1:ℝ), (0:ℝ)) : Vec3))] 1
      = BiotSavart.magnetic_field_from_coil_at_point 0 [] 1 ∧
    BiotSavart.magnetic_field_from_coil_at_point 0
        [((((1:ℝ), (0:ℝ), (0:ℝ)) : Vec3), (((0:ℝ), (1:ℝ), (0:ℝ)) : Vec3))] 1
      = (1:ℝ) • ((1 / (vnorm ((0 : Vec3) - (((1:ℝ), (0:ℝ), (0:ℝ)) : Vec3))) ^ 3)
            • cross (((0:ℝ), (1:ℝ), (0:ℝ)) : Vec3) ((0 : Vec3) - (((1:ℝ), (0:ℝ), (0:ℝ)) : Vec3)))
        + BiotSavart.magnetic_field_from_coil_at_point 0 [] 1) := by
  have hne : (((1:ℝ), (0:ℝ), (0:ℝ)) : Vec3) ≠ (0 : Vec3) := by
    simp [Prod.ext_iff]
  exact ⟨hne, c5_coincident_segment_zero 1 [] 0 ((1:ℝ), (0:ℝ), (0:ℝ)) ((0:ℝ), (1:ℝ), (0:ℝ)) hne⟩

/-- C6: the dipole evaluator returns exactly the zero vector when the field
point coincides with the dipole position, and the closed-form dipole field
`(mu_0/4pi) * (3*r_hat*(m . r_hat) - m) / |r_vec|^3` at every other field
point. -/
theorem c6_dipole_singularity (p d mo : Vec3) (h : p ≠ d) :
    BiotSavart.magnetic_field_from_dipole d d mo = 0 ∧
    BiotSavart.magnetic_field_from_dipole p d mo = BiotSavart.dipole_field_formula p d mo := by
  constructor
  · unfold BiotSavart.magnetic_field_from_dipole
    simp [vnorm_zero]
  · unfold BiotSavart.magnetic_field_from_dipole BiotSavart.dipole_field_formula
    have hne : vnorm (p - d) ≠ 0 := by
      rw [Ne, vnorm_eq_zero, sub_eq_zero]
      exact h
    simp [hne]

/-- C6 witness: the magnet's dipole of `simulator_.py` (moment `(0,0,-50)`)
placed at the origin produces the zero vector at its own position and the
closed-form field at the point `(0,0,1)`. -/
theorem c6_dipole_singularity_witness :
    (((0:ℝ), (0:ℝ), (1:ℝ)) : Vec3) ≠ (0 : Vec3) ∧
    (BiotSavart.magnetic_field_from_dipole 0 0 (((0:ℝ), (0:ℝ), (-50:ℝ)) : Vec3) = 0 ∧
    BiotSavart.magnetic_field_from_dipole (((0:ℝ), (0:ℝ), (1:ℝ)) : Vec3) 0
        (((0:ℝ), (0:ℝ), (-50:ℝ)) : Vec3)
      = BiotSavart.dipole_field_formula (((0:ℝ), (0:ℝ), (1:ℝ)) : Vec3) 0
          (((0:ℝ), (0:ℝ), (-50:ℝ)) : Vec3)) := by
  have hne : (((0:ℝ), (0:ℝ), (1:ℝ)) : Vec3) ≠ (0 : Vec3) := by
    simp [Prod.ext_iff]
  exact ⟨hne, c6_dipole_singularity ((0:ℝ), (0:ℝ), (1:ℝ)) 0 ((0:ℝ), (0:ℝ), (-50:ℝ)) hne⟩

/-- C7: for every resolution `P` and radius `R`, the segment displacement
vectors of one discretized ring (built by the cyclic difference
`np.diff(coil_pos, append=coil_pos[0])`) sum to exactly the zero vector: the
discretized loop closes. -/
theorem c7_loop_closure (R : ℝ) (P : ℕ) : (BiotSavart.ring_dls R P).sum = 0 := by
  have hsum : (BiotSavart.ring_dls R P).sum
      = ∑ k ∈ Finset.range P,
          (BiotSavart.coil_pos R P ((k + 1) % P) - BiotSavart.coil_pos R P k) :=
    sum_map_range _ P
  rw [hsum]
  rcases Nat.eq_zero_or_pos P with hP | hP
  · subst hP
    simp
  · obtain ⟨n, rfl⟩ := Nat.exists_eq_add_of_lt hP
    rw [zero_add]
    rw [Finset.sum_range_succ, Nat.mod_self]
    have hcongr : ∑ k ∈ Finset.range n,
          (BiotSavart.coil_pos R (n + 1) ((k + 1) % (n + 1)) - BiotSavart.coil_pos R (n + 1) k)
        = ∑ k ∈ Finset.range n,
          (BiotSavart.coil_pos R (n + 1) (k + 1) - BiotSavart.coil_pos R (n + 1) k) :=
      Finset.sum_congr rfl fun k hk => by
        have hkn : k < n := Finset.mem_range.mp hk
        rw [Nat.mod_eq_of_lt (by omega : k + 1 < n + 1)]
    rw [hcongr, Finset.sum_range_sub (fun k => BiotSavart.coil_pos R (n + 1) k)]
    abel

/-- C9 counterexample: the epsilon-softened denominator `r^3 + 1e-9` of
`2d_sim.py` is NOT nonzero for every real magnet position: at
`x = coil_position + 1/1000` the relative distance is `r = -1/1000`, whose
cube exactly cancels the added epsilon. -/
theorem c9_softening_counterexample :
    Sim2D.r3_softened ((Sim2D.coil_position : ℝ) + 1 / 1000) = 0 := by
  unfold Sim2D.r3_softened
  norm_num

/-- C9 (amended): the softened denominator `r^3 + 1e-9` vanishes only at the
single magnet position `x = coil_position + 1/1000`; at every other position
it is nonzero, and for every position left of that point (which includes the
whole trajectory of the run, where the magnet stays left of the coil) it is
strictly positive, so the field evaluation never divides by zero there and
keeps one fixed sign. -/
theorem c9_softened_denominator (x : ℝ) (hx : x ≠ (Sim2D.coil_position : ℝ) + 1 / 1000) :
    Sim2D.r3_softened x ≠ 0 ∧
    (x < (Sim2D.coil_position : ℝ) + 1 / 1000 → 0 < Sim2D.r3_softened x) := by
  have heps : (1e-9 : ℝ) = (1 / 1000) ^ 3 := by norm_num
  have hfac : ∀ a : ℝ, (a + 1 / 1000) * ((a - 1 / 2000) ^ 2 + 3 / 4 * (1 / 1000) ^ 2)
      = a ^ 3 + (1 / 1000) ^ 3 := fun a => by ring
  have hqpos : ∀ a : ℝ, 0 < (a - 1 / 2000) ^ 2 + 3 / 4 * (1 / 1000) ^ 2 := fun a => by positivity
  constructor
  · intro h0
    apply hx
    unfold Sim2D.r3_softened at h0
    rw [heps] at h0
    rw [← hfac ((Sim2D.coil_position : ℝ) - x)] at h0
    rcases mul_eq_zero.mp h0 with hz | hz
    · linarith
    · exact absurd hz (hqpos _).ne'
  · intro hlt
    unfold Sim2D.r3_softened
    rw [heps, ← hfac ((Sim2D.coil_position : ℝ) - x)]
    exact mul_pos (by linarith) (hqpos _)

/-- C9 (amended) witness: at the run's initial magnet position `x0 = -0.5`
the softened denominator is nonzero and strictly positive. -/
theorem c9_softened_denominator_witness :
    ((Sim2D.x0 : ℚ) : ℝ) ≠ (Sim2D.coil_position : ℝ) + 1 / 1000 ∧
    ((Sim2D.x0 : ℚ) : ℝ) < (Sim2D.coil_position : ℝ) + 1 / 1000 ∧
    Sim2D.r3_softened ((Sim2D.x0 : ℚ) : ℝ) ≠ 0 ∧
    0 < Sim2D.r3_softened ((Sim2D.x0 : ℚ) : ℝ) := by
  have hne : ((Sim2D.x0 : ℚ) : ℝ) ≠ (Sim2D.coil_position : ℝ) + 1 / 1000 := by
    norm_num [Sim2D.x0, Sim2D.coil_position]
  have hlt : ((Sim2D.x0 : ℚ) : ℝ) < (Sim2D.coil_position : ℝ) + 1 / 1000 := by
    norm_num [Sim2D.x0, Sim2D.coil_position]
  exact ⟨hne, hlt, (c9_softened_denominator _ hne).1, (c9_softened_denominator _ hne).2 hlt⟩

/-- C1 (the geometry bug evaluated): with the configured values
`coils_number = 3`, `coils_step = 0.1`, `coils_points = 1000`, the ring-offset
loop of `simulator.py`, `np.arange(0, coils_number*coils_step + coils_step,
coils_step)`, produces the FOUR offsets `0, 0.1, 0.2, 0.3` and hence
`4 x 1000 = 4000` segments, not the `3` rings and `3000` segments the claim
and the scripts' own parameter comments describe; the per-turn loop of
`simulator_.py` (`for k in range(coils_number)`) produces exactly the claimed
`3` rings and `3000 = coils_points x coils_number` segments. -/
theorem c1_ring_count (R : ℝ) :
    BiotSavart.coil_z_offsets 3 (1 / 10) = [0, 1 / 10, 1 / 5, 3 / 10] ∧
    (BiotSavart.all_segment_origins R 1000 (BiotSavart.coil_z_offsets 3 (1 / 10))).length
      = 4 * 1000 ∧
    BiotSavart.coil_z_offsets' 3 (1 / 10) = [0, 1 / 10, 1 / 5] ∧
    (BiotSavart.all_segment_origins R 1000 (BiotSavart.coil_z_offsets' 3 (1 / 10))).length
      = 3 * 1000 := by
  have hlen : ∀ offs : List ℚ,
      (BiotSavart.all_segment_origins R 1000 offs).length = offs.length * 1000 := by
    intro offs
    unfold BiotSavart.all_segment_origins BiotSavart.ring_origins
    rw [List.length_flatten]
    induction offs with
    | nil => rfl
    | cons z t ih => simp_all [Nat.succ_mul, Nat.add_comm]
  have hoff : BiotSavart.coil_z_offsets 3 (1 / 10) = [0, 1 / 10, 1 / 5, 3 / 10] := by
    have hceil : (⌈(((3 : ℕ) : ℚ) * (1 / 10) + 1 / 10 - 0) / (1 / 10)⌉).toNat = 4 := by
      norm_num
      rfl
    rw [BiotSavart.coil_z_offsets, arange, hceil]
    have hr : List.range 4 = [0, 1, 2, 3] := by decide
    rw [hr]
    norm_num
  have hoff' : BiotSavart.coil_z_offsets' 3 (1 / 10) = [0, 1 / 10, 1 / 5] := by
    rw [BiotSavart.coil_z_offsets']
    have hr : List.range 3 = [0, 1, 2] := by decide
    rw [hr]
    norm_num
  refine ⟨hoff, ?_, hoff', ?_⟩
  · rw [hoff, hlen]
    rfl
  · rw [hoff', hlen]
    rfl

end MagneticSim
